import Mathlib

/-!
Verification of the sale-transaction and stock-consistency engine of the
`pos_system` repository (Django backend, `api` app).

The data model is a shallow embedding of the relevant Django models
(`Product`, `Sale`, `SaleItem`, `InventoryMovement` in `api/models.py`) and
the operations are embeddings of:

* `SaleSerializer.create`              (`api/serializers.py`)  — `createSale`
* `SaleViewSet.cancel_sale`            (`api/views.py`)        — `cancelSale`
* `ProductViewSet.adjust_stock`        (`api/views.py`)        — `adjustStock`
* `InventoryMovementSerializer.create` (`api/serializers.py`)  — `createMovement`
* `SaleViewSet.create_from_scan`       (`api/views.py`)        — `createFromScan`

Monetary amounts (`DecimalField(decimal_places=2)`) are modelled as integer
cents (`Nat`); `Product.stock` is an `IntegerField`, modelled as `Int`.

A crucial point of fidelity: in `SaleSerializer.create` every line item's
`product` is resolved by DRF's `PrimaryKeyRelatedField` into a *separate*
in-memory model instance, all fetched before any write.  The write phase then
does `product.stock -= quantity; product.save()` on those possibly-stale
instances, so if the same product occurs in two line items the second save
overwrites the first (a lost update).  The embedding keeps the fetched
snapshot inside each pending item and writes `snapshot.stock - quantity`,
exactly as the Django code does.  `cancel_sale`, by contrast, re-fetches
`item.product` lazily per item inside the transaction, so it sees its own
earlier writes; its embedding reads the current state at each step.
-/

namespace PosSystem

/-- `api.models.Product`: id, owning user, unit price in cents, stock. -/
structure Product where
  id : Nat
  userId : Nat
  price : Nat
  stock : Int
  deriving Repr, DecidableEq

/-- `api.models.Sale`: id, transacting user, total price in cents,
cancellation flag. -/
structure Sale where
  id : Nat
  userId : Nat
  totalPrice : Nat
  isCancelled : Bool
  deriving Repr, DecidableEq

/-- `api.models.SaleItem`: line item of a sale with the price snapshot. -/
structure SaleItem where
  saleId : Nat
  productId : Nat
  quantity : Nat
  priceUnit : Nat
  subtotal : Nat
  deriving Repr, DecidableEq

/-- `api.models.InventoryMovement`: `entrada` (stock increase) when
`isEntrada` is `true`, `salida` (decrease) otherwise. -/
structure Movement where
  productId : Nat
  isEntrada : Bool
  quantity : Nat
  note : String
  deriving Repr, DecidableEq

/-- The database state touched by the core operations. -/
structure State where
  products : List Product
  sales : List Sale
  saleItems : List SaleItem
  movements : List Movement
  nextSaleId : Nat
  deriving Repr, DecidableEq

/-- `Product.objects.get(id=pid)` — first row with the given id. -/
def lookupProduct (ps : List Product) (pid : Nat) : Option Product :=
  ps.find? (fun p => p.id = pid)

/-- `product.stock = s; product.save()` — update the stock column of the
product row(s) with the given id. -/
def setStock (ps : List Product) (pid : Nat) (s : Int) : List Product :=
  ps.map (fun p => if p.id = pid then { p with stock := s } else p)

/-- Current stored stock of a product (0 when the row is absent). -/
def stockOf (st : State) (pid : Nat) : Int :=
  match lookupProduct st.products pid with
  | some p => p.stock
  | none => 0

/-- Net logged quantity for a product: sum of `entrada` quantities minus sum
of `salida` quantities. -/
def netLogged (movs : List Movement) (pid : Nat) : Int :=
  (movs.map (fun m =>
    if m.productId = pid then
      (if m.isEntrada then (m.quantity : Int) else -(m.quantity : Int))
    else 0)).sum

/-- Errors raised on the `SaleSerializer` path.  `insufficientStock` is the
`ValidationError` raised inside `SaleSerializer.create` for ONE line item
(`f"Stock insuficiente para {product.name}. Disponible: ..., Solicitado: ..."`);
it carries a single (product, requested, available) triple, matching the
f-string raised at the first failing item. -/
inductive SaleError where
  | emptyItems
  | productNotFound (pid : Nat)
  | invalidQuantity (pid : Nat)
  | insufficientStock (pid : Nat) (requested : Nat) (available : Int)
  deriving Repr, DecidableEq

/-- A line item after DRF validation (`is_valid`): the product resolved by
`PrimaryKeyRelatedField` into its own in-memory instance (a snapshot of the
row as read before any write), plus the validated quantity. -/
structure ResolvedItem where
  product : Product
  quantity : Nat
  deriving Repr, DecidableEq

/-- A line item after the stock check inside `SaleSerializer.create`:
`price_unit = product.price`, `subtotal = price_unit * quantity`. -/
structure PendingItem where
  product : Product
  quantity : Nat
  priceUnit : Nat
  subtotal : Nat
  deriving Repr, DecidableEq

/-- DRF validation of the `items` payload: each `product` pk must resolve
(`PrimaryKeyRelatedField`), each `quantity` must be positive
(`SaleItemSerializer.validate_quantity`).  All products are fetched here,
before `create` runs — hence all snapshots are of the same initial state. -/
def resolveItems (ps : List Product) : List (Nat × Nat) → Except SaleError (List ResolvedItem)
  | [] => .ok []
  | (pid, qty) :: rest =>
    if qty = 0 then .error (.invalidQuantity pid)
    else
      match lookupProduct ps pid with
      | none => .error (.productNotFound pid)
      | some p =>
        match resolveItems ps rest with
        | .error e => .error e
        | .ok rs => .ok (⟨p, qty⟩ :: rs)

/-- The validation loop of `SaleSerializer.create`: for each item in order,
`if product.stock < quantity: raise ValidationError(...)` — aborting at the
FIRST failing item — else capture `price_unit` and `subtotal`. -/
def stockCheck : List ResolvedItem → Except SaleError (List PendingItem)
  | [] => .ok []
  | it :: rest =>
    if it.product.stock < (it.quantity : Int) then
      .error (.insufficientStock it.product.id it.quantity it.product.stock)
    else
      match stockCheck rest with
      | .error e => .error e
      | .ok ps => .ok (⟨it.product, it.quantity, it.product.price, it.product.price * it.quantity⟩ :: ps)

/-- The write loop of `SaleSerializer.create`: per item, save the `SaleItem`,
write `product.stock - quantity` from the item's own (possibly stale)
instance, and append a `salida` movement. -/
def applyPending (saleId : Nat) (st : State) : List PendingItem → State
  | [] => st
  | it :: rest =>
    applyPending saleId
      { st with
        saleItems := st.saleItems ++
          [⟨saleId, it.product.id, it.quantity, it.priceUnit, it.subtotal⟩],
        products := setStock st.products it.product.id (it.product.stock - (it.quantity : Int)),
        movements := st.movements ++
          [⟨it.product.id, false, it.quantity, "Venta #" ++ toString saleId⟩] }
      rest

/-- `SaleSerializer.create` (with the surrounding DRF validation): validate
the items, check stock against the fetched snapshots, then atomically create
the `Sale`, its `SaleItem`s, the stock decrements and the `salida`
movements.  On error nothing is committed (`@transaction.atomic`). -/
def createSale (st : State) (userId : Nat) (items : List (Nat × Nat)) : Except SaleError State :=
  if items.isEmpty then .error .emptyItems
  else
    match resolveItems st.products items with
    | .error e => .error e
    | .ok resolved =>
      match stockCheck resolved with
      | .error e => .error e
      | .ok pending =>
        let totalPrice := (pending.map (fun it => it.subtotal)).sum
        let sale : Sale := ⟨st.nextSaleId, userId, totalPrice, false⟩
        let st1 := { st with sales := st.sales ++ [sale], nextSaleId := st.nextSaleId + 1 }
        .ok (applyPending sale.id st1 pending)

/-- Errors of `SaleViewSet.cancel_sale`.  `productMissing` stands for the
transaction aborting (rollback) when a line item's product row cannot be
fetched mid-loop; with the FK constraint this is unreachable. -/
inductive CancelError where
  | saleNotFound
  | alreadyCancelled
  | productMissing
  deriving Repr, DecidableEq

/-- The restoration loop of `cancel_sale`: per line item, `item.product` is
fetched fresh (inside the same transaction, so it sees earlier writes),
`product.stock += item.quantity; product.save()`, and an `entrada` movement
is appended.  A missing product is skipped here; `cancelSale` rules that
case out up front (rollback semantics). -/
def restoreItems (saleId : Nat) (st : State) : List SaleItem → State
  | [] => st
  | it :: rest =>
    match lookupProduct st.products it.productId with
    | none => restoreItems saleId st rest
    | some p =>
      restoreItems saleId
        { st with
          products := setStock st.products it.productId (p.stock + (it.quantity : Int)),
          movements := st.movements ++
            [⟨it.productId, true, it.quantity,
              "Devolución por cancelación de venta #" ++ toString saleId⟩] }
        rest

/-- `SaleViewSet.cancel_sale`: reject if the sale is missing or already
cancelled; otherwise restore stock per line item, log `entrada` movements,
and flag the sale cancelled — all in one atomic unit. -/
def cancelSale (st : State) (saleId : Nat) : Except CancelError State :=
  match st.sales.find? (fun s => s.id = saleId) with
  | none => .error .saleNotFound
  | some sale =>
    if sale.isCancelled then .error .alreadyCancelled
    else
      let items := st.saleItems.filter (fun it => it.saleId = saleId)
      if items.all (fun it => (lookupProduct st.products it.productId).isSome) then
        let st1 := restoreItems saleId st items
        .ok { st1 with
          sales := st1.sales.map (fun s =>
            if s.id = saleId then { s with isCancelled := true } else s) }
      else .error .productMissing

/-- Errors of `ProductViewSet.adjust_stock`.  `negativeStock` carries the
current stock, as the error message does
(`'El ajuste resultaría en stock negativo. Stock actual: {product.stock}'`). -/
inductive AdjustError where
  | zeroAdjustment
  | productNotFound
  | negativeStock (current : Int)
  deriving Repr, DecidableEq

/-- `ProductViewSet.adjust_stock`: `StockAdjustmentSerializer` rejects
`adjustment == 0`; then `new_stock = product.stock + adjustment` must be
`>= 0` or the call is rejected; on success the stock is written and one
movement is logged (`entrada` if positive else `salida`, quantity
`abs(adjustment)`).  Returns the new state with `(old_stock, new_stock)`. -/
def adjustStock (st : State) (pid : Nat) (adjustment : Int) (reason : String) :
    Except AdjustError (State × Int × Int) :=
  if adjustment = 0 then .error .zeroAdjustment
  else
    match lookupProduct st.products pid with
    | none => .error .productNotFound
    | some p =>
      let newStock := p.stock + adjustment
      if newStock < 0 then .error (.negativeStock p.stock)
      else
        .ok ({ st with
          products := setStock st.products pid newStock,
          movements := st.movements ++
            [⟨pid, decide (0 < adjustment), adjustment.natAbs, "Ajuste manual: " ++ reason⟩] },
          p.stock, newStock)

/-- Movement direction, `api.models.InventoryMovement.MOVEMENT_TYPES`. -/
inductive MovementType where
  | entrada
  | salida
  deriving Repr, DecidableEq

/-- Errors of `InventoryMovementSerializer.create`. -/
inductive MovementError where
  | invalidQuantity
  | productNotFound
  | insufficientStock (available : Int) (requested : Nat)
  deriving Repr, DecidableEq

/-- `InventoryMovementSerializer.create`: the model validator requires
`quantity >= 1`; `entrada` adds the quantity to stock unconditionally,
`salida` requires `quantity <= product.stock` and subtracts it; the movement
row is then saved, all inside `@transaction.atomic`. -/
def createMovement (st : State) (pid : Nat) (mtype : MovementType) (qty : Nat) (note : String) :
    Except MovementError State :=
  if qty = 0 then .error .invalidQuantity
  else
    match lookupProduct st.products pid with
    | none => .error .productNotFound
    | some p =>
      match mtype with
      | .entrada =>
        .ok { st with
          products := setStock st.products pid (p.stock + (qty : Int)),
          movements := st.movements ++ [⟨pid, true, qty, note⟩] }
      | .salida =>
        if p.stock < (qty : Int) then .error (.insufficientStock p.stock qty)
        else
          .ok { st with
            products := setStock st.products pid (p.stock - (qty : Int)),
            movements := st.movements ++ [⟨pid, false, qty, note⟩] }

/-- A committed-or-rejected core operation. -/
inductive Op where
  | sale (userId : Nat) (items : List (Nat × Nat))
  | cancel (saleId : Nat)
  | adjust (pid : Nat) (adjustment : Int) (reason : String)
  | movement (pid : Nat) (mtype : MovementType) (qty : Nat) (note : String)
  deriving Repr, DecidableEq

/-- The committed state after one operation: a rejected operation leaves the
state unchanged (transaction rollback). -/
def runOp (st : State) : Op → State
  | .sale u items =>
    match createSale st u items with
    | .ok st' => st'
    | .error _ => st
  | .cancel sid =>
    match cancelSale st sid with
    | .ok st' => st'
    | .error _ => st
  | .adjust pid adj reason =>
    match adjustStock st pid adj reason with
    | .ok r => r.1
    | .error _ => st
  | .movement pid mt qty note =>
    match createMovement st pid mt qty note with
    | .ok st' => st'
    | .error _ => st

/-- The committed state after a sequence of core operations. -/
def runOps (st : State) (ops : List Op) : State :=
  ops.foldl runOp st

/-- The requesting user as seen by `create_from_scan`: `user.is_admin`,
`user.is_empleado`, and `user.manager` (`manager_id`). -/
structure UserInfo where
  id : Nat
  isAdmin : Bool
  isEmpleado : Bool
  managerId : Option Nat
  deriving Repr, DecidableEq

/-- Concrete field names of the `Sale` model (`api/models.py`).  Django's
`Model.__init__` raises `TypeError` for any keyword argument that is neither
a field nor a property. -/
def saleModelFields : List String :=
  ["id", "user", "date", "total_price", "is_cancelled", "cancelled_at", "cancelled_by"]

/-- Concrete field names of the `SaleItem` model (`api/models.py`). -/
def saleItemModelFields : List String :=
  ["id", "sale", "product", "quantity", "price_unit", "subtotal"]

/-- Whether a Django model constructor call with the given keyword-argument
names succeeds (every kwarg names a model field). -/
def validKwargs (fields kwargs : List String) : Bool :=
  kwargs.all (fun k => fields.contains k)

/-- One entry of the `errors` list accumulated by `create_from_scan`. -/
inductive ScanItemError where
  | notFound (pid : Nat)
  | notAllowedAdmin (pid : Nat)
  | notAllowedEmpleado (pid : Nat)
  | insufficientStock (pid : Nat) (requested : Int) (available : Int)
  deriving Repr, DecidableEq

/-- Outcome of `create_from_scan`.  `internalError` is an unhandled
exception (HTTP 500), distinct from the structured 400 responses. -/
inductive ScanOutcome where
  | committed (st : State)
  | noItems
  | invalidPaymentMethod
  | invalidItemFormat
  | validationFailed (errors : List ScanItemError)
  | internalError
  deriving Repr, DecidableEq

/-- The validation loop of `create_from_scan`: a malformed item
(falsy `product_id`, non-positive or non-integer `quantity`) aborts the whole
request immediately; a missing product, a permission failure or a stock
shortfall appends to `errors` and continues; a valid item is accumulated with
its product snapshot (`select_for_update` fetches a fresh instance per item,
all before any write). -/
def scanValidate (ps : List Product) (user : UserInfo) :
    List (Nat × Int) → Except Unit (List ScanItemError × List PendingItem)
  | [] => .ok ([], [])
  | (pid, qty) :: rest =>
    if pid = 0 ∨ qty ≤ 0 then .error ()
    else
      match lookupProduct ps pid with
      | none =>
        match scanValidate ps user rest with
        | .error e => .error e
        | .ok (es, its) => .ok (.notFound pid :: es, its)
      | some p =>
        if user.isAdmin ∧ p.userId ≠ user.id then
          match scanValidate ps user rest with
          | .error e => .error e
          | .ok (es, its) => .ok (.notAllowedAdmin pid :: es, its)
        else if user.isEmpleado ∧ (user.managerId = none ∨ some p.userId ≠ user.managerId) then
          match scanValidate ps user rest with
          | .error e => .error e
          | .ok (es, its) => .ok (.notAllowedEmpleado pid :: es, its)
        else if p.stock < qty then
          match scanValidate ps user rest with
          | .error e => .error e
          | .ok (es, its) => .ok (.insufficientStock pid qty p.stock :: es, its)
        else
          match scanValidate ps user rest with
          | .error e => .error e
          | .ok (es, its) =>
            .ok (es, ⟨p, qty.toNat, p.price, p.price * qty.toNat⟩ :: its)

/-- `SaleViewSet.create_from_scan`: after full validation the code calls
`Sale.objects.create(user=..., total_price=..., payment_method=...)` and, per
item, `SaleItem.objects.create(sale=..., product=..., quantity=..., price=...,
subtotal=...)`.  The constructor calls are modelled by `validKwargs` against
the models' actual field lists; a kwarg that is not a field raises `TypeError`
and the transaction rolls back (`internalError`). -/
def createFromScan (st : State) (user : UserInfo) (items : List (Nat × Int))
    (paymentMethod : String) : ScanOutcome :=
  if items.isEmpty then .noItems
  else if ¬ (paymentMethod = "efectivo" ∨ paymentMethod = "tarjeta" ∨
      paymentMethod = "transferencia") then .invalidPaymentMethod
  else
    match scanValidate st.products user items with
    | .error _ => .invalidItemFormat
    | .ok (errors, pending) =>
      if ¬ errors.isEmpty then .validationFailed errors
      else if validKwargs saleModelFields ["user", "total_price", "payment_method"] &&
          validKwargs saleItemModelFields ["sale", "product", "quantity", "price", "subtotal"] then
        let totalPrice := (pending.map (fun it => it.subtotal)).sum
        let sale : Sale := ⟨st.nextSaleId, user.id, totalPrice, false⟩
        let st1 := { st with sales := st.sales ++ [sale], nextSaleId := st.nextSaleId + 1 }
        .committed (applyPending sale.id st1 pending)
      else .internalError

/-- The `SaleItem` row written by the sale-creation write loop. -/
def toSaleItem (saleId : Nat) (it : PendingItem) : SaleItem :=
  ⟨saleId, it.product.id, it.quantity, it.priceUnit, it.subtotal⟩

/-- The `salida` movement row written by the sale-creation write loop. -/
def toSalida (saleId : Nat) (it : PendingItem) : Movement :=
  ⟨it.product.id, false, it.quantity, "Venta #" ++ toString saleId⟩

/-- The `entrada` movement row written by the cancellation loop. -/
def toEntrada (saleId : Nat) (it : SaleItem) : Movement :=
  ⟨it.productId, true, it.quantity, "Devolución por cancelación de venta #" ++ toString saleId⟩

/-- Total quantity the pending line items request for a given product. -/
def pendingQty (pending : List PendingItem) (pid : Nat) : Int :=
  ((pending.filter (fun it => it.product.id = pid)).map (fun it => (it.quantity : Int))).sum

/-- Total quantity the stored line items carry for a given product. -/
def itemsQty (items : List SaleItem) (pid : Nat) : Int :=
  ((items.filter (fun it => it.productId = pid)).map (fun it => (it.quantity : Int))).sum

/-- The published stock invariant: every product row has `stock >= 0`. -/
def allStocksNonneg (st : State) : Prop :=
  ∀ p ∈ st.products, 0 ≤ p.stock

instance (st : State) : Decidable (allStocksNonneg st) :=
  List.decidableBAll _ st.products

/-- Side condition under which sale creation reconciles: no product occurs in
two line items of the same sale. -/
def opSaleNodup : Op → Prop
  | .sale _ items => (items.map Prod.fst).Nodup
  | _ => True

instance : DecidablePred opSaleNodup := by
  intro op
  cases op with
  | sale u items => exact (inferInstance : Decidable ((items.map Prod.fst).Nodup))
  | cancel sid => exact (inferInstance : Decidable True)
  | adjust a b c => exact (inferInstance : Decidable True)
  | movement a b c d => exact (inferInstance : Decidable True)

/-- The shortfall triple carried by one serializer-path stock error. -/
def errorShortfalls : SaleError → List (Nat × Nat × Int)
  | .insufficientStock pid req avail => [(pid, req, avail)]
  | _ => []

/-- Modelled from the spec: the full list of per-item shortfalls
(`product_id`, `requested`, `available`) for every line item whose quantity
exceeds its product's available stock — what the spec says the
insufficient-stock error carries. -/
def specShortfallList (ps : List Product) (items : List (Nat × Nat)) :
    List (Nat × Nat × Int) :=
  items.filterMap (fun x =>
    match lookupProduct ps x.1 with
    | some p => if p.stock < (x.2 : Int) then some (x.1, x.2, p.stock) else none
    | none => none)

/-- The stock-shortfall entries `create_from_scan` accumulates in `errors`
for a given item list. -/
def scanShortfalls (ps : List Product) (items : List (Nat × Int)) : List ScanItemError :=
  items.filterMap (fun x =>
    match lookupProduct ps x.1 with
    | some p => if p.stock < x.2 then some (.insufficientStock x.1 x.2 p.stock) else none
    | none => none)

/-- A scan item that passes format, existence and permission checks (so only
the stock check can still fail on it). -/
def scanItemAuthorized (ps : List Product) (user : UserInfo) (x : Nat × Int) : Prop :=
  x.1 ≠ 0 ∧ 0 < x.2 ∧ ∃ p, lookupProduct ps x.1 = some p ∧
    ¬(user.isAdmin = true ∧ p.userId ≠ user.id) ∧
    ¬(user.isEmpleado = true ∧ (user.managerId = none ∨ some p.userId ≠ user.managerId))

instance {ε : Type _} {α : Type _} [DecidableEq ε] [DecidableEq α] :
    DecidableEq (Except ε α) := fun x y =>
  match x, y with
  | .ok a, .ok b =>
    if h : a = b then isTrue (by rw [h]) else isFalse (by simp [h])
  | .error a, .error b =>
    if h : a = b then isTrue (by rw [h]) else isFalse (by simp [h])
  | .ok _, .error _ => isFalse (by simp)
  | .error _, .ok _ => isFalse (by simp)

/-- Sample catalogue for concrete instantiations: product 1 (price 2.50,
stock 5) and product 2 (price 1.00, stock 1), both owned by user 10. -/
def exProducts : List Product := [⟨1, 10, 250, 5⟩, ⟨2, 10, 100, 1⟩]

/-- Sample empty-ledger state over `exProducts`. -/
def exState : State := ⟨exProducts, [], [], [], 1⟩

/-- Sample admin user owning `exProducts`. -/
def exAdmin : UserInfo := ⟨10, true, false, none⟩

/-- Sample state holding one committed, not-yet-cancelled sale (id 1) with
two line items over `exProducts`. -/
def exSaleState : State :=
  ⟨exProducts, [⟨1, 10, 850, false⟩],
    [⟨1, 1, 3, 250, 750⟩, ⟨1, 2, 1, 100, 100⟩], [], 2⟩

/-- The state after selling 3 of product 1 and 1 of product 2 in `exState`. -/
def exAfterSale : State := (createSale exState 10 [(1, 3), (2, 1)]).toOption.getD exState

section Lemmas

theorem setStockFun_id (pid : Nat) (s : Int) (p : Product) :
    (if p.id = pid then { p with stock := s } else p).id = p.id := by
  by_cases h : p.id = pid <;> simp [h]

theorem lookupProduct_setStock (ps : List Product) (pid : Nat) (s : Int) (pid' : Nat) :
    lookupProduct (setStock ps pid s) pid' =
      (lookupProduct ps pid').map (fun p => if p.id = pid then { p with stock := s } else p) := by
  induction ps with
  | nil => rfl
  | cons p ps ih =>
    simp only [lookupProduct, setStock, List.map_cons, List.find?_cons] at *
    rw [setStockFun_id]
    by_cases hp' : p.id = pid'
    · simp [hp']
    · simp [hp', ih]

theorem lookupProduct_id {ps : List Product} {pid : Nat} {p : Product}
    (h : lookupProduct ps pid = some p) : p.id = pid := by
  have := List.find?_some h
  simpa using this

theorem lookupProduct_mem {ps : List Product} {pid : Nat} {p : Product}
    (h : lookupProduct ps pid = some p) : p ∈ ps :=
  List.mem_of_find?_eq_some h

theorem lookupProduct_setStock_ne (ps : List Product) {pid pid' : Nat} (s : Int)
    (h : pid' ≠ pid) : lookupProduct (setStock ps pid s) pid' = lookupProduct ps pid' := by
  rw [lookupProduct_setStock]
  cases hl : lookupProduct ps pid' with
  | none => rfl
  | some p =>
    have hid := lookupProduct_id hl
    simp [hid, h]

theorem lookupProduct_setStock_self {ps : List Product} {pid : Nat} {p : Product} (s : Int)
    (h : lookupProduct ps pid = some p) :
    lookupProduct (setStock ps pid s) pid = some { p with stock := s } := by
  rw [lookupProduct_setStock, h]
  have hid := lookupProduct_id h
  simp [hid]

theorem lookupProduct_setStock_isSome (ps : List Product) (pid : Nat) (s : Int) (pid' : Nat) :
    (lookupProduct (setStock ps pid s) pid').isSome = (lookupProduct ps pid').isSome := by
  rw [lookupProduct_setStock]
  cases lookupProduct ps pid' <;> rfl

theorem mem_setStock {ps : List Product} {pid : Nat} {s : Int} {q : Product}
    (h : q ∈ setStock ps pid s) :
    ∃ p ∈ ps, q = if p.id = pid then { p with stock := s } else p := by
  rcases List.mem_map.mp h with ⟨p, hp, rfl⟩
  exact ⟨p, hp, rfl⟩

theorem applyPending_saleItems (saleId : Nat) (st : State) (pending : List PendingItem) :
    (applyPending saleId st pending).saleItems =
      st.saleItems ++ pending.map (toSaleItem saleId) := by
  induction pending generalizing st with
  | nil => simp [applyPending]
  | cons it rest ih => simp [applyPending, ih, toSaleItem]

theorem applyPending_movements (saleId : Nat) (st : State) (pending : List PendingItem) :
    (applyPending saleId st pending).movements =
      st.movements ++ pending.map (toSalida saleId) := by
  induction pending generalizing st with
  | nil => simp [applyPending]
  | cons it rest ih => simp [applyPending, ih, toSalida]

theorem applyPending_sales (saleId : Nat) (st : State) (pending : List PendingItem) :
    (applyPending saleId st pending).sales = st.sales := by
  induction pending generalizing st with
  | nil => rfl
  | cons it rest ih => simp [applyPending, ih]

theorem applyPending_nextSaleId (saleId : Nat) (st : State) (pending : List PendingItem) :
    (applyPending saleId st pending).nextSaleId = st.nextSaleId := by
  induction pending generalizing st with
  | nil => rfl
  | cons it rest ih => simp [applyPending, ih]

theorem applyPending_lookup_isSome (saleId : Nat) (st : State) (pending : List PendingItem)
    (pid : Nat) :
    (lookupProduct (applyPending saleId st pending).products pid).isSome =
      (lookupProduct st.products pid).isSome := by
  induction pending generalizing st with
  | nil => rfl
  | cons it rest ih =>
    rw [applyPending, ih]
    exact lookupProduct_setStock_isSome _ _ _ _

theorem stockCheck_ok_shape {resolved : List ResolvedItem} {pending : List PendingItem}
    (h : stockCheck resolved = .ok pending) :
    pending = resolved.map (fun it =>
      ⟨it.product, it.quantity, it.product.price, it.product.price * it.quantity⟩) ∧
    ∀ it ∈ resolved, ¬ it.product.stock < (it.quantity : Int) := by
  induction resolved generalizing pending with
  | nil =>
    simp only [stockCheck] at h
    cases h
    simp
  | cons it rest ih =>
    simp only [stockCheck] at h
    by_cases hs : it.product.stock < (it.quantity : Int)
    · rw [if_pos hs] at h; cases h
    · rw [if_neg hs] at h
      cases hrec : stockCheck rest with
      | error e => rw [hrec] at h; cases h
      | ok ps =>
        rw [hrec] at h
        cases h
        rcases ih hrec with ⟨hshape, hle⟩
        refine ⟨by simp [hshape], ?_⟩
        intro x hx
        rcases List.mem_cons.mp hx with rfl | hx
        · exact hs
        · exact hle x hx

theorem stockCheck_error_of_mem {resolved : List ResolvedItem} {it : ResolvedItem}
    (hmem : it ∈ resolved) (hviol : it.product.stock < (it.quantity : Int)) :
    ∃ e, stockCheck resolved = .error e := by
  induction resolved with
  | nil => cases hmem
  | cons hd rest ih =>
    by_cases hs : hd.product.stock < (hd.quantity : Int)
    · exact ⟨.insufficientStock hd.product.id hd.quantity hd.product.stock,
        by simp [stockCheck, hs]⟩
    · rcases List.mem_cons.mp hmem with rfl | hmem'
      · exact absurd hviol hs
      · rcases ih hmem' with ⟨e, he⟩
        exact ⟨e, by simp [stockCheck, hs, he]⟩

theorem stockCheck_first_failure {resolved : List ResolvedItem} {e : SaleError}
    (h : stockCheck resolved = .error e) :
    ∃ it, resolved.find? (fun it => it.product.stock < (it.quantity : Int)) = some it ∧
      e = .insufficientStock it.product.id it.quantity it.product.stock := by
  induction resolved with
  | nil => simp [stockCheck] at h
  | cons hd rest ih =>
    simp only [stockCheck] at h
    by_cases hs : hd.product.stock < (hd.quantity : Int)
    · rw [if_pos hs] at h
      cases h
      exact ⟨hd, by simp [List.find?_cons, hs], rfl⟩
    · rw [if_neg hs] at h
      cases hrec : stockCheck rest with
      | error e' =>
        rw [hrec] at h
        cases h
        rcases ih hrec with ⟨it, hfind, he⟩
        exact ⟨it, by simp [List.find?_cons, hs, hfind], he⟩
      | ok ps => rw [hrec] at h; cases h

theorem resolveItems_ok_shape {ps : List Product} {items : List (Nat × Nat)}
    {resolved : List ResolvedItem} (h : resolveItems ps items = .ok resolved) :
    resolved.map (fun it => (it.product.id, it.quantity)) = items ∧
    ∀ it ∈ resolved, lookupProduct ps it.product.id = some it.product ∧ it.quantity ≠ 0 := by
  induction items generalizing resolved with
  | nil =>
    simp only [resolveItems] at h
    cases h
    simp
  | cons x rest ih =>
    obtain ⟨pid, qty⟩ := x
    simp only [resolveItems] at h
    by_cases hq : qty = 0
    · rw [if_pos hq] at h; cases h
    · rw [if_neg hq] at h
      cases hl : lookupProduct ps pid with
      | none => rw [hl] at h; cases h
      | some p =>
        rw [hl] at h
        cases hrec : resolveItems ps rest with
        | error e => rw [hrec] at h; cases h
        | ok rs =>
          rw [hrec] at h
          cases h
          rcases ih hrec with ⟨hshape, hmem⟩
          have hpid := lookupProduct_id hl
          constructor
          · simp [hshape, hpid]
          · intro it hit
            rcases List.mem_cons.mp hit with rfl | hit'
            · exact ⟨by rw [hpid]; exact hl, hq⟩
            · exact hmem it hit'

theorem resolveItems_total {ps : List Product} {items : List (Nat × Nat)}
    (h : ∀ x ∈ items, x.2 ≠ 0 ∧ (lookupProduct ps x.1).isSome) :
    ∃ resolved, resolveItems ps items = .ok resolved := by
  induction items with
  | nil => exact ⟨[], rfl⟩
  | cons x rest ih =>
    obtain ⟨pid, qty⟩ := x
    obtain ⟨hq, hsome⟩ := h (pid, qty) (List.mem_cons_self _ _)
    rcases Option.isSome_iff_exists.mp hsome with ⟨p, hp⟩
    rcases ih (fun y hy => h y (List.mem_cons_of_mem _ hy)) with ⟨rs, hrs⟩
    exact ⟨⟨p, qty⟩ :: rs, by simp [resolveItems, hq, hp, hrs]⟩

theorem pendingQty_cons (it : PendingItem) (rest : List PendingItem) (pid : Nat) :
    pendingQty (it :: rest) pid =
      (if it.product.id = pid then (it.quantity : Int) else 0) + pendingQty rest pid := by
  by_cases h : it.product.id = pid <;> simp [pendingQty, h]

theorem itemsQty_cons (it : SaleItem) (rest : List SaleItem) (pid : Nat) :
    itemsQty (it :: rest) pid =
      (if it.productId = pid then (it.quantity : Int) else 0) + itemsQty rest pid := by
  by_cases h : it.productId = pid <;> simp [itemsQty, h]

theorem pendingQty_eq_zero {pending : List PendingItem} {pid : Nat}
    (h : ∀ it ∈ pending, it.product.id ≠ pid) : pendingQty pending pid = 0 := by
  induction pending with
  | nil => rfl
  | cons it rest ih =>
    rw [pendingQty_cons, if_neg (h it (List.mem_cons_self _ _)),
      ih (fun x hx => h x (List.mem_cons_of_mem _ hx))]
    ring

theorem itemsQty_map_toSaleItem (saleId : Nat) (pending : List PendingItem) (pid : Nat) :
    itemsQty (pending.map (toSaleItem saleId)) pid = pendingQty pending pid := by
  induction pending with
  | nil => rfl
  | cons it rest ih =>
    rw [List.map_cons, itemsQty_cons, pendingQty_cons, ih]
    rfl

theorem stockOf_of_products_eq {st' st : State} (hps : st'.products = st.products) (q : Nat) :
    stockOf st' q = stockOf st q := by
  simp only [stockOf, hps]

theorem stockOf_of_setStock {st' st : State} {pid : Nat} {p : Product} {s : Int}
    (hps : st'.products = setStock st.products pid s)
    (h : lookupProduct st.products pid = some p) (q : Nat) :
    stockOf st' q = if q = pid then s else stockOf st q := by
  by_cases hq : q = pid
  · subst hq
    simp [stockOf, hps, lookupProduct_setStock_self s h]
  · simp only [stockOf, hps, lookupProduct_setStock_ne _ _ hq, if_neg hq]

theorem stockOf_eq_of_lookup {st : State} {pid : Nat} {p : Product}
    (h : lookupProduct st.products pid = some p) : stockOf st pid = p.stock := by
  simp only [stockOf, h]

/-- Stock effect of the sale-creation write loop, assuming no product occurs
twice among the pending items and every pending snapshot agrees with the
current state: the final stock of each touched product is its current stock
minus the requested quantity. -/
theorem stockOf_applyPending (saleId : Nat) (st : State) (pending : List PendingItem)
    (hnodup : (pending.map (fun it => it.product.id)).Nodup)
    (hsnap : ∀ it ∈ pending, lookupProduct st.products it.product.id = some it.product)
    (pid : Nat) :
    stockOf (applyPending saleId st pending) pid = stockOf st pid - pendingQty pending pid := by
  induction pending generalizing st with
  | nil => simp [applyPending, pendingQty]
  | cons it rest ih =>
    rw [applyPending]
    have hlook := hsnap it (List.mem_cons_self _ _)
    have hnotmem : it.product.id ∉ rest.map (fun x => x.product.id) :=
      (List.nodup_cons.mp hnodup).1
    have hrest_ne : ∀ x ∈ rest, x.product.id ≠ it.product.id := by
      intro x hx heq
      exact hnotmem (List.mem_map.mpr ⟨x, hx, heq⟩)
    set st' : State :=
      { st with
        saleItems := st.saleItems ++
          [⟨saleId, it.product.id, it.quantity, it.priceUnit, it.subtotal⟩],
        products := setStock st.products it.product.id (it.product.stock - (it.quantity : Int)),
        movements := st.movements ++
          [⟨it.product.id, false, it.quantity, "Venta #" ++ toString saleId⟩] } with hst'
    have hps : st'.products =
        setStock st.products it.product.id (it.product.stock - (it.quantity : Int)) := rfl
    have hsnap' : ∀ x ∈ rest, lookupProduct st'.products x.product.id = some x.product := by
      intro x hx
      rw [hps, lookupProduct_setStock_ne _ _ (hrest_ne x hx)]
      exact hsnap x (List.mem_cons_of_mem _ hx)
    rw [ih st' (List.nodup_cons.mp hnodup).2 hsnap']
    rw [stockOf_of_setStock hps hlook pid, pendingQty_cons]
    by_cases hq : pid = it.product.id
    · subst hq
      rw [if_pos rfl, if_pos rfl, stockOf_eq_of_lookup hlook,
        pendingQty_eq_zero (fun x hx => hrest_ne x hx)]
      ring
    · rw [if_neg hq, if_neg (fun h => hq h.symm)]
      ring

theorem restoreItems_sales (saleId : Nat) (st : State) (items : List SaleItem) :
    (restoreItems saleId st items).sales = st.sales := by
  induction items generalizing st with
  | nil => rfl
  | cons it rest ih =>
    rw [restoreItems]
    cases lookupProduct st.products it.productId with
    | none => exact ih st
    | some p => exact ih _

theorem restoreItems_saleItems (saleId : Nat) (st : State) (items : List SaleItem) :
    (restoreItems saleId st items).saleItems = st.saleItems := by
  induction items generalizing st with
  | nil => rfl
  | cons it rest ih =>
    rw [restoreItems]
    cases lookupProduct st.products it.productId with
    | none => exact ih st
    | some p => exact ih _

theorem restoreItems_nextSaleId (saleId : Nat) (st : State) (items : List SaleItem) :
    (restoreItems saleId st items).nextSaleId = st.nextSaleId := by
  induction items generalizing st with
  | nil => rfl
  | cons it rest ih =>
    rw [restoreItems]
    cases lookupProduct st.products it.productId with
    | none => exact ih st
    | some p => exact ih _

theorem restoreItems_movements (saleId : Nat) (st : State) (items : List SaleItem)
    (hex : ∀ it ∈ items, (lookupProduct st.products it.productId).isSome) :
    (restoreItems saleId st items).movements = st.movements ++ items.map (toEntrada saleId) := by
  induction items generalizing st with
  | nil => simp [restoreItems]
  | cons it rest ih =>
    rw [restoreItems]
    rcases Option.isSome_iff_exists.mp (hex it (List.mem_cons_self _ _)) with ⟨p, hp⟩
    rw [hp]
    have hex' : ∀ x ∈ rest,
        (lookupProduct (setStock st.products it.productId (p.stock + (it.quantity : Int)))
          x.productId).isSome := by
      intro x hx
      rw [lookupProduct_setStock_isSome]
      exact hex x (List.mem_cons_of_mem _ hx)
    rw [ih _ hex']
    simp [toEntrada]

theorem restoreItems_stockOf (saleId : Nat) (st : State) (items : List SaleItem)
    (hex : ∀ it ∈ items, (lookupProduct st.products it.productId).isSome) (pid : Nat) :
    stockOf (restoreItems saleId st items) pid = stockOf st pid + itemsQty items pid := by
  induction items generalizing st with
  | nil => simp [restoreItems, itemsQty]
  | cons it rest ih =>
    rw [restoreItems]
    rcases Option.isSome_iff_exists.mp (hex it (List.mem_cons_self _ _)) with ⟨p, hp⟩
    rw [hp]
    set st' : State :=
      { st with
        products := setStock st.products it.productId (p.stock + (it.quantity : Int)),
        movements := st.movements ++
          [⟨it.productId, true, it.quantity,
            "Devolución por cancelación de venta #" ++ toString saleId⟩] } with hst'
    have hps : st'.products = setStock st.products it.productId (p.stock + (it.quantity : Int)) :=
      rfl
    have hex' : ∀ x ∈ rest, (lookupProduct st'.products x.productId).isSome := by
      intro x hx
      rw [hps, lookupProduct_setStock_isSome]
      exact hex x (List.mem_cons_of_mem _ hx)
    rw [ih st' hex', stockOf_of_setStock hps hp pid, itemsQty_cons]
    by_cases hq : pid = it.productId
    · subst hq
      rw [if_pos rfl, if_pos rfl, stockOf_eq_of_lookup hp]
      ring
    · rw [if_neg hq, if_neg (fun h => hq h.symm)]
      ring

theorem netLogged_append (m₁ m₂ : List Movement) (pid : Nat) :
    netLogged (m₁ ++ m₂) pid = netLogged m₁ pid + netLogged m₂ pid := by
  simp [netLogged]

theorem netLogged_map_toSalida (saleId : Nat) (pending : List PendingItem) (pid : Nat) :
    netLogged (pending.map (toSalida saleId)) pid = -(pendingQty pending pid) := by
  induction pending with
  | nil => simp [netLogged, pendingQty]
  | cons it rest ih =>
    rw [List.map_cons, pendingQty_cons]
    show netLogged (toSalida saleId it :: rest.map (toSalida saleId)) pid = _
    rw [netLogged, List.map_cons, List.sum_cons]
    rw [netLogged] at ih
    rw [ih]
    by_cases h : it.product.id = pid
    · simp [toSalida, h]
      ring
    · simp [toSalida, h]

theorem netLogged_map_toEntrada (saleId : Nat) (items : List SaleItem) (pid : Nat) :
    netLogged (items.map (toEntrada saleId)) pid = itemsQty items pid := by
  induction items with
  | nil => simp [netLogged, itemsQty]
  | cons it rest ih =>
    rw [List.map_cons, itemsQty_cons]
    rw [netLogged, List.map_cons, List.sum_cons]
    rw [netLogged] at ih
    rw [ih]
    by_cases h : it.productId = pid
    · simp [toEntrada, h]
    · simp [toEntrada, h]

theorem netLogged_single (m : Movement) (pid : Nat) :
    netLogged [m] pid =
      if m.productId = pid then
        (if m.isEntrada then (m.quantity : Int) else -(m.quantity : Int))
      else 0 := by
  simp [netLogged]

theorem setStock_nonneg {ps : List Product} {pid : Nat} {s : Int}
    (hps : ∀ p ∈ ps, 0 ≤ p.stock) (hs : 0 ≤ s) :
    ∀ p ∈ setStock ps pid s, 0 ≤ p.stock := by
  intro q hq
  rcases mem_setStock hq with ⟨p, hp, rfl⟩
  by_cases h : p.id = pid
  · simpa [h] using hs
  · simpa [h] using hps p hp

theorem stockCheck_ok_le {resolved : List ResolvedItem} {pending : List PendingItem}
    (h : stockCheck resolved = .ok pending) :
    ∀ it ∈ pending, (it.quantity : Int) ≤ it.product.stock := by
  rcases stockCheck_ok_shape h with ⟨rfl, hle⟩
  intro it hit
  rcases List.mem_map.mp hit with ⟨r, hr, rfl⟩
  exact le_of_not_lt (hle r hr)

theorem applyPending_nonneg (saleId : Nat) (st : State) (pending : List PendingItem)
    (hst : allStocksNonneg st)
    (hpend : ∀ it ∈ pending, (it.quantity : Int) ≤ it.product.stock) :
    allStocksNonneg (applyPending saleId st pending) := by
  induction pending generalizing st with
  | nil => exact hst
  | cons it rest ih =>
    rw [applyPending]
    refine ih _ ?_ (fun x hx => hpend x (List.mem_cons_of_mem _ hx))
    intro q hq
    have hle := hpend it (List.mem_cons_self _ _)
    exact setStock_nonneg hst (by linarith) q hq

theorem restoreItems_nonneg (saleId : Nat) (st : State) (items : List SaleItem)
    (hst : allStocksNonneg st) : allStocksNonneg (restoreItems saleId st items) := by
  induction items generalizing st with
  | nil => exact hst
  | cons it rest ih =>
    rw [restoreItems]
    cases hl : lookupProduct st.products it.productId with
    | none => exact ih st hst
    | some p =>
      refine ih _ ?_
      intro q hq
      have hp := hst p (lookupProduct_mem hl)
      have : (0 : Int) ≤ p.stock + (it.quantity : Int) := by positivity
      exact setStock_nonneg hst this q hq

theorem createSale_ok_inv {st : State} {u : Nat} {items : List (Nat × Nat)} {st1 : State}
    (h : createSale st u items = .ok st1) :
    ∃ resolved pending,
      resolveItems st.products items = .ok resolved ∧
      stockCheck resolved = .ok pending ∧
      st1 = applyPending st.nextSaleId
        { st with
          sales := st.sales ++
            [⟨st.nextSaleId, u, (pending.map (fun it => it.subtotal)).sum, false⟩],
          nextSaleId := st.nextSaleId + 1 } pending := by
  unfold createSale at h
  split at h
  · cases h
  · split at h
    · cases h
    · rename_i resolved hres
      split at h
      · cases h
      · rename_i pending hchk
        cases h
        exact ⟨resolved, pending, hres, hchk, rfl⟩

theorem cancelSale_ok_inv {st : State} {sid : Nat} {st1 : State}
    (h : cancelSale st sid = .ok st1) :
    ∃ sale, st.sales.find? (fun s => s.id = sid) = some sale ∧ sale.isCancelled = false ∧
      (∀ it ∈ st.saleItems.filter (fun it => it.saleId = sid),
        (lookupProduct st.products it.productId).isSome) ∧
      st1 = { restoreItems sid st (st.saleItems.filter (fun it => it.saleId = sid)) with
        sales := (restoreItems sid st
          (st.saleItems.filter (fun it => it.saleId = sid))).sales.map
            (fun s => if s.id = sid then { s with isCancelled := true } else s) } := by
  unfold cancelSale at h
  split at h
  · cases h
  · rename_i sale hfind
    split at h
    · cases h
    · rename_i hc
      dsimp only at h
      split at h
      · rename_i hall
        cases h
        refine ⟨sale, hfind, Bool.not_eq_true _ ▸ hc, ?_, rfl⟩
        intro it hit
        exact List.all_eq_true.mp hall it hit
      · cases h

theorem cancelSale_eq_ok {st : State} {sid : Nat} {sale : Sale}
    (hfind : st.sales.find? (fun s => s.id = sid) = some sale)
    (hc : sale.isCancelled = false)
    (hex : ∀ it ∈ st.saleItems.filter (fun it => it.saleId = sid),
      (lookupProduct st.products it.productId).isSome) :
    cancelSale st sid =
      .ok { restoreItems sid st (st.saleItems.filter (fun it => it.saleId = sid)) with
        sales := (restoreItems sid st
          (st.saleItems.filter (fun it => it.saleId = sid))).sales.map
            (fun s => if s.id = sid then { s with isCancelled := true } else s) } := by
  have hall : (st.saleItems.filter (fun it => it.saleId = sid)).all
      (fun it => (lookupProduct st.products it.productId).isSome) = true :=
    List.all_eq_true.mpr hex
  simp [cancelSale, hfind, hc, hall]

theorem adjustStock_ok_inv {st : State} {pid : Nat} {adj : Int} {reason : String}
    {st1 : State} {oldS newS : Int}
    (h : adjustStock st pid adj reason = .ok (st1, oldS, newS)) :
    ∃ p, adj ≠ 0 ∧ lookupProduct st.products pid = some p ∧
      oldS = p.stock ∧ newS = p.stock + adj ∧ 0 ≤ p.stock + adj ∧
      st1 = { st with
        products := setStock st.products pid (p.stock + adj),
        movements := st.movements ++
          [⟨pid, decide (0 < adj), adj.natAbs, "Ajuste manual: " ++ reason⟩] } := by
  unfold adjustStock at h
  split at h
  · cases h
  · rename_i hz
    split at h
    · cases h
    · rename_i p hl
      dsimp only at h
      split at h
      · cases h
      · rename_i hneg
        cases h
        exact ⟨p, hz, hl, rfl, rfl, le_of_not_lt hneg, rfl⟩

theorem createMovement_ok_inv {st : State} {pid : Nat} {mt : MovementType} {qty : Nat}
    {note : String} {st1 : State} (h : createMovement st pid mt qty note = .ok st1) :
    ∃ p, qty ≠ 0 ∧ lookupProduct st.products pid = some p ∧
      ((mt = .entrada ∧ st1 = { st with
          products := setStock st.products pid (p.stock + (qty : Int)),
          movements := st.movements ++ [⟨pid, true, qty, note⟩] }) ∨
       (mt = .salida ∧ (qty : Int) ≤ p.stock ∧ st1 = { st with
          products := setStock st.products pid (p.stock - (qty : Int)),
          movements := st.movements ++ [⟨pid, false, qty, note⟩] })) := by
  unfold createMovement at h
  split at h
  · cases h
  · rename_i hz
    split at h
    · cases h
    · rename_i p hl
      cases mt with
      | entrada =>
        dsimp only at h
        cases h
        exact ⟨p, hz, hl, Or.inl ⟨rfl, rfl⟩⟩
      | salida =>
        dsimp only at h
        split at h
        · cases h
        · rename_i hlt
          cases h
          exact ⟨p, hz, hl, Or.inr ⟨rfl, le_of_not_lt hlt, rfl⟩⟩

theorem runOp_nonneg (st : State) (op : Op) (h : allStocksNonneg st) :
    allStocksNonneg (runOp st op) := by
  cases op with
  | sale u items =>
    rw [runOp]
    cases hc : createSale st u items with
    | error e => exact h
    | ok st1 =>
      rcases createSale_ok_inv hc with ⟨resolved, pending, hres, hchk, rfl⟩
      exact applyPending_nonneg _ _ _ h (stockCheck_ok_le hchk)
  | cancel sid =>
    rw [runOp]
    cases hc : cancelSale st sid with
    | error e => exact h
    | ok st1 =>
      rcases cancelSale_ok_inv hc with ⟨sale, _, _, _, rfl⟩
      intro p hp
      exact restoreItems_nonneg _ _ _ h p hp
  | adjust pid adj reason =>
    rw [runOp]
    cases hc : adjustStock st pid adj reason with
    | error e => exact h
    | ok r =>
      obtain ⟨st1, oldS, newS⟩ := r
      rcases adjustStock_ok_inv hc with ⟨p, _, hl, _, _, hge, rfl⟩
      intro q hq
      exact setStock_nonneg h hge q hq
  | movement pid mt qty note =>
    rw [runOp]
    cases hc : createMovement st pid mt qty note with
    | error e => exact h
    | ok st1 =>
      rcases createMovement_ok_inv hc with ⟨p, _, hl, hcases⟩
      have hp := h p (lookupProduct_mem hl)
      rcases hcases with ⟨_, rfl⟩ | ⟨_, hle, rfl⟩
      · intro q hq
        exact setStock_nonneg h (by positivity) q hq
      · intro q hq
        exact setStock_nonneg h (by linarith) q hq

theorem runOps_nonneg (st : State) (ops : List Op) (h : allStocksNonneg st) :
    allStocksNonneg (runOps st ops) := by
  induction ops generalizing st with
  | nil => exact h
  | cons op ops ih => exact ih (runOp st op) (runOp_nonneg st op h)

theorem createSale_pending_facts {st : State} {items : List (Nat × Nat)}
    {resolved : List ResolvedItem} {pending : List PendingItem}
    (hres : resolveItems st.products items = .ok resolved)
    (hchk : stockCheck resolved = .ok pending) :
    (∀ it ∈ pending, lookupProduct st.products it.product.id = some it.product) ∧
    pending.map (fun it => it.product.id) = items.map Prod.fst := by
  rcases resolveItems_ok_shape hres with ⟨hshape, hmem⟩
  rcases stockCheck_ok_shape hchk with ⟨rfl, _⟩
  constructor
  · intro it hit
    rcases List.mem_map.mp hit with ⟨r, hr, rfl⟩
    exact (hmem r hr).1
  · have := congrArg (List.map Prod.fst) hshape
    rw [List.map_map] at this
    rw [List.map_map]
    exact this

theorem runOp_reconciles (st : State) (op : Op) (hnodup : opSaleNodup op) (pid : Nat) :
    netLogged (runOp st op).movements pid - netLogged st.movements pid =
      stockOf (runOp st op) pid - stockOf st pid := by
  cases op with
  | sale u items =>
    rw [runOp]
    cases hc : createSale st u items with
    | error e => ring
    | ok st1 =>
      rcases createSale_ok_inv hc with ⟨resolved, pending, hres, hchk, rfl⟩
      rcases createSale_pending_facts hres hchk with ⟨hsnap, hids⟩
      have hnd : (pending.map (fun it => it.product.id)).Nodup := by
        rw [hids]; exact hnodup

      set stA : State :=
        { st with
          sales := st.sales ++
            [⟨st.nextSaleId, u, (pending.map (fun it => it.subtotal)).sum, false⟩],
          nextSaleId := st.nextSaleId + 1 } with hstA
      have hsnapA : ∀ it ∈ pending, lookupProduct stA.products it.product.id = some it.product :=
        hsnap
      have hstock := stockOf_applyPending st.nextSaleId stA pending hnd hsnapA pid
      have hmov := applyPending_movements st.nextSaleId stA pending
      rw [hmov]
      have hsA : stA.movements = st.movements := rfl
      have hpA : stockOf stA pid = stockOf st pid := stockOf_of_products_eq rfl pid
      rw [hstock, hsA, hpA, netLogged_append, netLogged_map_toSalida]
      ring
  | cancel sid =>
    rw [runOp]
    cases hc : cancelSale st sid with
    | error e => ring
    | ok st1 =>
      rcases cancelSale_ok_inv hc with ⟨sale, hfind, hcanc, hex, rfl⟩
      set items := st.saleItems.filter (fun it => it.saleId = sid) with hitems
      have hmov := restoreItems_movements sid st items hex
      have hstock := restoreItems_stockOf sid st items hex pid
      have h1 : netLogged (restoreItems sid st items).movements pid - netLogged st.movements pid
          = itemsQty items pid := by
        rw [hmov, netLogged_append, netLogged_map_toEntrada]; ring
      have h2 : stockOf (restoreItems sid st items) pid - stockOf st pid
          = itemsQty items pid := by
        rw [hstock]; ring
      calc netLogged (restoreItems sid st items).movements pid - netLogged st.movements pid
          = itemsQty items pid := h1
        _ = stockOf (restoreItems sid st items) pid - stockOf st pid := h2.symm
  | adjust pid' adj reason =>
    rw [runOp]
    cases hc : adjustStock st pid' adj reason with
    | error e => ring
    | ok r =>
      obtain ⟨st1, oldS, newS⟩ := r
      rcases adjustStock_ok_inv hc with ⟨p, hz, hl, _, _, hge, rfl⟩
      have hstock := @stockOf_of_setStock { st with
        products := setStock st.products pid' (p.stock + adj),
        movements := st.movements ++
          [⟨pid', decide (0 < adj), adj.natAbs, "Ajuste manual: " ++ reason⟩] }
        st pid' p (p.stock + adj) rfl hl pid
      rw [hstock, netLogged_append, netLogged_single]
      have hps : stockOf st pid' = p.stock := stockOf_eq_of_lookup hl
      by_cases hq : pid = pid'
      · subst hq
        rw [if_pos rfl, if_pos rfl, hps]
        simp only [decide_eq_true_eq]
        by_cases hpos : 0 < adj
        · rw [if_pos hpos]
          omega
        · rw [if_neg hpos]
          omega
      · rw [if_neg (fun hh => hq hh.symm), if_neg hq]
        ring
  | movement pid' mt qty note =>
    rw [runOp]
    cases hc : createMovement st pid' mt qty note with
    | error e => ring
    | ok st1 =>
      rcases createMovement_ok_inv hc with ⟨p, hz, hl, hcases⟩
      have hps : stockOf st pid' = p.stock := stockOf_eq_of_lookup hl
      rcases hcases with ⟨_, rfl⟩ | ⟨_, hle, rfl⟩
      · have hstock := @stockOf_of_setStock { st with
          products := setStock st.products pid' (p.stock + (qty : Int)),
          movements := st.movements ++ [⟨pid', true, qty, note⟩] }
          st pid' p (p.stock + (qty : Int)) rfl hl pid
        rw [hstock, netLogged_append, netLogged_single]
        by_cases hq : pid = pid'
        · subst hq
          rw [if_pos rfl, if_pos rfl, hps]
          simp only [if_true]
          ring
        · rw [if_neg (fun hh => hq hh.symm), if_neg hq]
          ring
      · have hstock := @stockOf_of_setStock { st with
          products := setStock st.products pid' (p.stock - (qty : Int)),
          movements := st.movements ++ [⟨pid', false, qty, note⟩] }
          st pid' p (p.stock - (qty : Int)) rfl hl pid
        rw [hstock, netLogged_append, netLogged_single]
        by_cases hq : pid = pid'
        · subst hq
          rw [if_pos rfl, if_pos rfl, hps]
          simp only [Bool.false_eq_true, if_false]
          ring
        · rw [if_neg (fun hh => hq hh.symm), if_neg hq]
          ring

theorem runOps_reconciles (st : State) (ops : List Op)
    (h : ∀ op ∈ ops, opSaleNodup op) (pid : Nat) :
    netLogged (runOps st ops).movements pid - netLogged st.movements pid =
      stockOf (runOps st ops) pid - stockOf st pid := by
  induction ops generalizing st with
  | nil => simp [runOps]
  | cons op ops ih =>
    have h1 := runOp_reconciles st op (h op (List.mem_cons_self _ _)) pid
    have h2 := ih (runOp st op) (fun o ho => h o (List.mem_cons_of_mem _ ho))
    have hstep : runOps st (op :: ops) = runOps (runOp st op) ops := rfl
    rw [hstep]
    linarith

theorem find?_sales_append {sales : List Sale} {sid : Nat}
    (h : ∀ s ∈ sales, s.id ≠ sid) (sale : Sale) (hsid : sale.id = sid) :
    (sales ++ [sale]).find? (fun s => s.id = sid) = some sale := by
  rw [List.find?_append]
  have hnone : sales.find? (fun s => s.id = sid) = none :=
    List.find?_eq_none.mpr (by intro x hx; simpa using h x hx)
  rw [hnone]
  simp [List.find?_cons, hsid]

theorem find?_sales_setCancelled (sales : List Sale) (sid : Nat) (q : Nat) :
    (sales.map (fun s => if s.id = sid then { s with isCancelled := true } else s)).find?
        (fun s => s.id = q) =
      (sales.find? (fun s => s.id = q)).map
        (fun s => if s.id = sid then { s with isCancelled := true } else s) := by
  rw [List.find?_map]
  have hpred : ((fun s => decide (s.id = q)) ∘ fun s : Sale =>
      if s.id = sid then { s with isCancelled := true } else s) =
      (fun s : Sale => decide (s.id = q)) := by
    funext s
    by_cases h : s.id = sid <;> simp [h, Function.comp]
  rw [hpred]

/-- The new line items, created sale row and appended movements of a
successful `createSale`, extracted against a state whose sale-item table and
sales table do not yet use the id `st.nextSaleId`. -/
theorem createSale_new_items {st : State} {u : Nat} {items : List (Nat × Nat)} {st1 : State}
    (hok : createSale st u items = .ok st1)
    (hfresh : ∀ it ∈ st.saleItems, it.saleId ≠ st.nextSaleId) :
    ∃ resolved pending, resolveItems st.products items = .ok resolved ∧
      stockCheck resolved = .ok pending ∧
      st1.saleItems.filter (fun it => it.saleId = st.nextSaleId) =
        pending.map (toSaleItem st.nextSaleId) ∧
      st1.sales = st.sales ++
        [⟨st.nextSaleId, u, (pending.map (fun it => it.subtotal)).sum, false⟩] ∧
      st1.movements = st.movements ++ pending.map (toSalida st.nextSaleId) := by
  rcases createSale_ok_inv hok with ⟨resolved, pending, hres, hchk, rfl⟩
  refine ⟨resolved, pending, hres, hchk, ?_, ?_, ?_⟩
  · rw [applyPending_saleItems]
    show (st.saleItems ++ pending.map (toSaleItem st.nextSaleId)).filter _ = _
    rw [List.filter_append]
    have h1 : st.saleItems.filter (fun it => it.saleId = st.nextSaleId) = [] :=
      List.filter_eq_nil_iff.mpr (by intro x hx; simpa using hfresh x hx)
    have h2 : (pending.map (toSaleItem st.nextSaleId)).filter
        (fun it => it.saleId = st.nextSaleId) = pending.map (toSaleItem st.nextSaleId) :=
      List.filter_eq_self.mpr (by
        intro x hx
        rcases List.mem_map.mp hx with ⟨y, _, rfl⟩
        simp [toSaleItem])
    rw [h1, h2, List.nil_append]
  · rw [applyPending_sales]
  · rw [applyPending_movements]

theorem mem_of_getLast?_eq_some {α : Type _} {l : List α} {a : α}
    (h : l.getLast? = some a) : a ∈ l := by
  rcases List.getLast?_eq_some_iff.mp h with ⟨ys, rfl⟩
  simp

theorem scanValidate_collects_all (ps : List Product) (user : UserInfo)
    (items : List (Nat × Int)) (h : ∀ x ∈ items, scanItemAuthorized ps user x) :
    ∃ pending, scanValidate ps user items = .ok (scanShortfalls ps items, pending) := by
  induction items with
  | nil => exact ⟨[], rfl⟩
  | cons x rest ih =>
    obtain ⟨pid, qty⟩ := x
    obtain ⟨hpid, hqty, p, hp, hadm, hemp⟩ := h (pid, qty) (List.mem_cons_self _ _)
    rcases ih (fun y hy => h y (List.mem_cons_of_mem _ hy)) with ⟨pending, hrest⟩
    have hfmt : ¬(pid = 0 ∨ qty ≤ 0) := by
      push_neg
      exact ⟨hpid, by linarith⟩
    by_cases hs : p.stock < qty
    · refine ⟨pending, ?_⟩
      rw [scanValidate, if_neg hfmt, hp]
      dsimp only
      rw [if_neg hadm, if_neg hemp, if_pos hs, hrest]
      have : scanShortfalls ps ((pid, qty) :: rest) =
          .insufficientStock pid qty p.stock :: scanShortfalls ps rest := by
        rw [scanShortfalls, List.filterMap_cons]
        dsimp only
        rw [hp]
        dsimp only
        rw [if_pos hs]
        rfl
      rw [this]
    · refine ⟨⟨p, qty.toNat, p.price, p.price * qty.toNat⟩ :: pending, ?_⟩
      rw [scanValidate, if_neg hfmt, hp]
      dsimp only
      rw [if_neg hadm, if_neg hemp, if_neg hs, hrest]
      have : scanShortfalls ps ((pid, qty) :: rest) = scanShortfalls ps rest := by
        rw [scanShortfalls, List.filterMap_cons]
        dsimp only
        rw [hp]
        dsimp only
        rw [if_neg hs]
        rfl
      rw [this]

theorem saleKwargs_invalid :
    validKwargs saleModelFields ["user", "total_price", "payment_method"] = false := by
  decide

theorem createFromScan_not_committed (st : State) (user : UserInfo)
    (items : List (Nat × Int)) (pm : String) :
    ∀ st', createFromScan st user items pm ≠ .committed st' := by
  intro st' h
  unfold createFromScan at h
  split at h
  · cases h
  · split at h
    · cases h
    · split at h
      · cases h
      · rename_i errors pending heq
        split at h
        · cases h
        · split at h
          · rename_i hkw
            rw [saleKwargs_invalid] at hkw
            cases hkw
          · cases h

end Lemmas

/-- C1: starting from any state in which every product's stock is
non-negative, after any sequence of committed core operations (sale creation,
sale cancellation, manual stock adjustment, manual inventory movement) every
product's stock is still non-negative; an operation that fails its validation
is rejected and, by the rollback semantics of `runOp`, leaves the state
unchanged. -/
theorem stock_never_negative (st : State) (ops : List Op) (h : allStocksNonneg st) :
    allStocksNonneg (runOps st ops) :=
  runOps_nonneg st ops h

theorem stock_never_negative_witness :
    allStocksNonneg (runOps exState
      [.sale 10 [(1, 3), (2, 1)], .adjust 1 (-2) "damaged", .cancel 1,
       .movement 2 .salida 1 "out", .movement 2 .salida 99 "too much",
       .adjust 2 (-100) "x"]) :=
  stock_never_negative exState _ (by decide)

/-- C4 counterexample: a committed sale whose two line items reference the
same product decrements the stored stock by only the last item's quantity
(5 → 2, a change of −3) while logging two `salida` movements of 3 each (a
logged net of −6), so the movement log does not record the committed stock
mutation. -/
theorem movement_log_counterexample :
    stockOf (runOp exState (.sale 10 [(1, 3), (1, 3)])) 1 - stockOf exState 1 = -3 ∧
    netLogged (runOp exState (.sale 10 [(1, 3), (1, 3)])).movements 1 -
      netLogged exState.movements 1 = -6 := by
  decide

/-- C4 amended: for every product, after any sequence of committed core
operations in which no sale has two line items referencing the same product,
the net of logged movement quantities (entrada minus salida) equals the net
change of the product's stored stock. -/
theorem movement_log_reconciles (st : State) (ops : List Op)
    (h : ∀ op ∈ ops, opSaleNodup op) (pid : Nat) :
    netLogged (runOps st ops).movements pid - netLogged st.movements pid =
      stockOf (runOps st ops) pid - stockOf st pid :=
  runOps_reconciles st ops h pid

theorem movement_log_reconciles_witness :
    netLogged (runOps exState
        [.sale 10 [(1, 3), (2, 1)], .cancel 1, .adjust 1 2 "found"]).movements 1 -
      netLogged exState.movements 1 =
    stockOf (runOps exState
        [.sale 10 [(1, 3), (2, 1)], .cancel 1, .adjust 1 2 "found"]) 1 -
      stockOf exState 1 :=
  movement_log_reconciles exState
    [.sale 10 [(1, 3), (2, 1)], .cancel 1, .adjust 1 2 "found"] (by decide) 1

/-- C8: a manual stock adjustment whose delta would make the stock negative
is rejected with a negative-stock error carrying the current stock, and the
committed state (products and movement log included) is unchanged. -/
theorem adjust_negative_rejected (st : State) (pid : Nat) (adj : Int) (reason : String)
    (p : Product) (hl : lookupProduct st.products pid = some p)
    (hz : adj ≠ 0) (hneg : p.stock + adj < 0) :
    adjustStock st pid adj reason = .error (.negativeStock p.stock) ∧
    runOp st (.adjust pid adj reason) = st := by
  have h1 : adjustStock st pid adj reason = .error (.negativeStock p.stock) := by
    unfold adjustStock
    rw [if_neg hz, hl]
    dsimp only
    rw [if_pos hneg]
  refine ⟨h1, ?_⟩
  rw [runOp, h1]

theorem adjust_negative_rejected_witness :
    adjustStock exState 1 (-100) "x" = .error (.negativeStock 5) ∧
    runOp exState (.adjust 1 (-100) "x") = exState :=
  adjust_negative_rejected exState 1 (-100) "x" ⟨1, 10, 250, 5⟩
    (by decide) (by decide) (by decide)

/-- C10: a manual `entrada` movement always succeeds and adds its quantity to
the product's stock with no upper bound; a manual `salida` movement succeeds
exactly when its quantity is at most the current stock (subtracting it) and
is otherwise rejected with a validation error carrying the available stock,
leaving the state unchanged. -/
theorem manual_movement_semantics (st : State) (pid : Nat) (qty : Nat) (note : String)
    (p : Product) (hl : lookupProduct st.products pid = some p) (hq : qty ≠ 0) :
    (∃ st', createMovement st pid .entrada qty note = .ok st' ∧
      stockOf st' pid = p.stock + (qty : Int) ∧
      st'.movements = st.movements ++ [⟨pid, true, qty, note⟩]) ∧
    (p.stock < (qty : Int) →
      createMovement st pid .salida qty note = .error (.insufficientStock p.stock qty) ∧
      runOp st (.movement pid .salida qty note) = st) ∧
    ((qty : Int) ≤ p.stock →
      ∃ st', createMovement st pid .salida qty note = .ok st' ∧
        stockOf st' pid = p.stock - (qty : Int) ∧
        st'.movements = st.movements ++ [⟨pid, false, qty, note⟩]) := by
  refine ⟨?_, ?_, ?_⟩
  · refine ⟨{ st with
        products := setStock st.products pid (p.stock + (qty : Int)),
        movements := st.movements ++ [⟨pid, true, qty, note⟩] }, ?_, ?_, rfl⟩
    · unfold createMovement
      rw [if_neg hq, hl]
    · rw [stockOf_of_setStock rfl hl pid, if_pos rfl]
  · intro hlt
    have h1 : createMovement st pid .salida qty note =
        .error (.insufficientStock p.stock qty) := by
      unfold createMovement
      rw [if_neg hq, hl]
      dsimp only
      rw [if_pos hlt]
    refine ⟨h1, ?_⟩
    rw [runOp, h1]
  · intro hle
    refine ⟨{ st with
        products := setStock st.products pid (p.stock - (qty : Int)),
        movements := st.movements ++ [⟨pid, false, qty, note⟩] }, ?_, ?_, rfl⟩
    · unfold createMovement
      rw [if_neg hq, hl]
      dsimp only
      rw [if_neg (not_lt.mpr hle)]
    · rw [stockOf_of_setStock rfl hl pid, if_pos rfl]

theorem manual_movement_semantics_witness :
    (∃ st', createMovement exState 1 .entrada 4 "in" = .ok st' ∧
      stockOf st' 1 = 5 + (4 : Int) ∧
      st'.movements = exState.movements ++ [⟨1, true, 4, "in"⟩]) ∧
    ((5 : Int) < (9 : Nat) →
      createMovement exState 1 .salida 9 "out" = .error (.insufficientStock 5 9) ∧
      runOp exState (.movement 1 .salida 9 "out") = exState) ∧
    (((9 : Nat) : Int) ≤ 5 →
      ∃ st', createMovement exState 1 .salida 9 "out" = .ok st' ∧
        stockOf st' 1 = 5 - (9 : Int) ∧
        st'.movements = exState.movements ++ [⟨1, false, 9, "out"⟩]) := by
  have h4 := manual_movement_semantics exState 1 4 "in" ⟨1, 10, 250, 5⟩ (by decide) (by decide)
  have h9 := manual_movement_semantics exState 1 9 "out" ⟨1, 10, 250, 5⟩ (by decide) (by decide)
  exact ⟨h4.1, h9.2.1, h9.2.2⟩

/-- C2 counterexample: with product 1 (stock 5) and product 2 (stock 1), a
serializer-path sale requesting 7 of product 1 and 9 of product 2 has two
failing items, but the raised error carries only the first shortfall
(product 1, requested 7, available 5) — not the full list the claim
requires. -/
theorem shortfall_list_counterexample :
    createSale exState 10 [(1, 7), (2, 9)] = .error (.insufficientStock 1 7 5) ∧
    specShortfallList exState.products [(1, 7), (2, 9)] =
      [(1, 7, (5 : Int)), (2, 9, (1 : Int))] ∧
    errorShortfalls (.insufficientStock 1 7 5) ≠
      specShortfallList exState.products [(1, 7), (2, 9)] := by
  decide

/-- C2 amended: the serializer-based `create_sale` aborts at the FIRST line
item whose quantity exceeds stock and its error carries only that item's
shortfall, while the scan-based `create_from_scan` path accumulates and
returns the full list of per-item shortfalls (product, requested, available)
for every failing item. -/
theorem shortfall_reporting (ps : List Product) (user : UserInfo)
    (items : List (Nat × Int)) (resolved : List ResolvedItem) (e : SaleError)
    (herr : stockCheck resolved = .error e)
    (hauth : ∀ x ∈ items, scanItemAuthorized ps user x) :
    (∃ it, resolved.find? (fun it => it.product.stock < (it.quantity : Int)) = some it ∧
      e = .insufficientStock it.product.id it.quantity it.product.stock) ∧
    ∃ pending, scanValidate ps user items = .ok (scanShortfalls ps items, pending) :=
  ⟨stockCheck_first_failure herr, scanValidate_collects_all ps user items hauth⟩

theorem shortfall_reporting_witness :
    (∃ it, ([⟨⟨1, 10, 250, 5⟩, 7⟩, ⟨⟨2, 10, 100, 1⟩, 9⟩] : List ResolvedItem).find?
        (fun it => it.product.stock < (it.quantity : Int)) = some it ∧
      SaleError.insufficientStock 1 7 5 =
        .insufficientStock it.product.id it.quantity it.product.stock) ∧
    ∃ pending, scanValidate exProducts exAdmin [(1, 7), (2, 9)] =
      .ok (scanShortfalls exProducts [(1, 7), (2, 9)], pending) :=
  shortfall_reporting exProducts exAdmin [(1, 7), (2, 9)]
    [⟨⟨1, 10, 250, 5⟩, 7⟩, ⟨⟨2, 10, 100, 1⟩, 9⟩] (.insufficientStock 1 7 5)
    (by decide)
    (by
      intro x hx
      fin_cases hx
      · exact ⟨by decide, by decide, ⟨1, 10, 250, 5⟩, by decide, by decide, by decide⟩
      · exact ⟨by decide, by decide, ⟨2, 10, 100, 1⟩, by decide, by decide, by decide⟩)

/-- C5: if the last line item of a `create_sale` request exceeds its
product's available stock (and all items are well-formed, so the failure is
the stock check), the call returns an error and the committed state is
unchanged: no stock change, no sale, no line items, no movements. -/
theorem failed_sale_no_effect (st : State) (u : Nat) (items : List (Nat × Nat))
    (pid qty : Nat) (p : Product)
    (hwf : ∀ x ∈ items, x.2 ≠ 0 ∧ (lookupProduct st.products x.1).isSome)
    (hlast : items.getLast? = some (pid, qty))
    (hp : lookupProduct st.products pid = some p)
    (hshort : p.stock < (qty : Int)) :
    (∃ e, createSale st u items = .error e) ∧ runOp st (.sale u items) = st := by
  rcases resolveItems_total hwf with ⟨resolved, hres⟩
  rcases resolveItems_ok_shape hres with ⟨hshape, hmem⟩
  have hmemitem : (pid, qty) ∈ items := mem_of_getLast?_eq_some hlast
  rw [← hshape] at hmemitem
  rcases List.mem_map.mp hmemitem with ⟨r, hr, hfr⟩
  have hid : r.product.id = pid := congrArg Prod.fst hfr
  have hqty : r.quantity = qty := congrArg Prod.snd hfr
  have hlook := (hmem r hr).1
  rw [hid, hp] at hlook
  have hrp : r.product = p := by
    injection hlook with h
    exact h.symm
  have hviol : r.product.stock < (r.quantity : Int) := by
    rw [hrp, hqty]
    exact hshort
  rcases stockCheck_error_of_mem hr hviol with ⟨e, herr⟩
  have hne : items ≠ [] := by
    intro hnil
    rw [hnil] at hlast
    cases hlast
  have hcs : createSale st u items = .error e := by
    unfold createSale
    rw [if_neg (by simpa using hne), hres]
    dsimp only
    rw [herr]
  refine ⟨⟨e, hcs⟩, ?_⟩
  rw [runOp, hcs]

theorem failed_sale_no_effect_witness :
    (∃ e, createSale exState 10 [(1, 2), (2, 9)] = .error e) ∧
    runOp exState (.sale 10 [(1, 2), (2, 9)]) = exState :=
  failed_sale_no_effect exState 10 [(1, 2), (2, 9)] 2 9 ⟨2, 10, 100, 1⟩
    (by decide) (by decide) (by decide) (by decide)

/-- C9: a `create_from_scan` request whose items all pass validation never
commits: the code constructs the `Sale` row with a `payment_method` keyword
and the `SaleItem` row with a `price` keyword, neither of which is a field of
the corresponding model, so the constructor call raises and the transaction
rolls back with an internal error; no input whatsoever produces a committed
sale through this path. -/
theorem scan_sale_always_internal_error (st : State) (user : UserInfo)
    (items : List (Nat × Int)) (pm : String) (pending : List PendingItem)
    (h1 : items.isEmpty = false)
    (h2 : pm = "efectivo" ∨ pm = "tarjeta" ∨ pm = "transferencia")
    (h3 : scanValidate st.products user items = .ok ([], pending)) :
    createFromScan st user items pm = .internalError ∧
    ∀ st', createFromScan st user items pm ≠ .committed st' := by
  constructor
  · unfold createFromScan
    rw [if_neg (by simp [h1]), if_neg (not_not_intro h2), h3]
    dsimp only
    rw [if_neg (by simp), if_neg (by decide)]
  · exact createFromScan_not_committed st user items pm

theorem scan_sale_always_internal_error_witness :
    createFromScan exState exAdmin [(1, 2)] "efectivo" = .internalError ∧
    ∀ st', createFromScan exState exAdmin [(1, 2)] "efectivo" ≠ .committed st' :=
  scan_sale_always_internal_error exState exAdmin [(1, 2)] "efectivo"
    [⟨⟨1, 10, 250, 5⟩, 2, 250, 500⟩] (by decide) (by decide) (by decide)

/-- C6: every sale committed by `create_sale` has `total_price` equal to the
sum of its line items' subtotals, and each line item's subtotal equals its
quantity times the unit price snapshot captured from the product at sale
time. -/
theorem sale_total_consistent (st : State) (u : Nat) (items : List (Nat × Nat)) (st1 : State)
    (hfresh : ∀ it ∈ st.saleItems, it.saleId ≠ st.nextSaleId)
    (hsales : ∀ s ∈ st.sales, s.id ≠ st.nextSaleId)
    (hok : createSale st u items = .ok st1) :
    ∃ sale, st1.sales.find? (fun s => s.id = st.nextSaleId) = some sale ∧
      sale.totalPrice = ((st1.saleItems.filter (fun it => it.saleId = st.nextSaleId)).map
        (fun it => it.subtotal)).sum ∧
      ∀ it ∈ st1.saleItems.filter (fun it => it.saleId = st.nextSaleId),
        it.subtotal = it.priceUnit * it.quantity ∧
        ∃ p, lookupProduct st.products it.productId = some p ∧ it.priceUnit = p.price := by
  rcases createSale_new_items hok hfresh with
    ⟨resolved, pending, hres, hchk, hfilter, hsaleseq, _⟩
  refine ⟨⟨st.nextSaleId, u, (pending.map (fun it => it.subtotal)).sum, false⟩, ?_, ?_, ?_⟩
  · rw [hsaleseq]
    exact find?_sales_append hsales _ rfl
  · rw [hfilter, List.map_map]
    rfl
  · intro it hit
    rw [hfilter] at hit
    rcases List.mem_map.mp hit with ⟨x, hx, rfl⟩
    rcases stockCheck_ok_shape hchk with ⟨rfl, _⟩
    rcases List.mem_map.mp hx with ⟨r, hr, rfl⟩
    exact ⟨rfl, r.product, ((resolveItems_ok_shape hres).2 r hr).1, rfl⟩

theorem sale_total_consistent_witness :
    ∃ sale, exAfterSale.sales.find? (fun s => s.id = exState.nextSaleId) = some sale ∧
      sale.totalPrice = ((exAfterSale.saleItems.filter
        (fun it => it.saleId = exState.nextSaleId)).map (fun it => it.subtotal)).sum ∧
      ∀ it ∈ exAfterSale.saleItems.filter (fun it => it.saleId = exState.nextSaleId),
        it.subtotal = it.priceUnit * it.quantity ∧
        ∃ p, lookupProduct exState.products it.productId = some p ∧ it.priceUnit = p.price :=
  sale_total_consistent exState 10 [(1, 3), (2, 1)] exAfterSale
    (by decide) (by decide) (by decide)

/-- C7: cancelling an existing, not-yet-cancelled sale succeeds and restores
each touched product's stock by the sale's item quantities exactly once;
cancelling the same sale again fails with the already-cancelled error and
leaves the committed state unchanged. -/
theorem cancel_twice (st : State) (sid : Nat) (sale : Sale)
    (hfind : st.sales.find? (fun s => s.id = sid) = some sale)
    (hc : sale.isCancelled = false)
    (hex : ∀ it ∈ st.saleItems.filter (fun it => it.saleId = sid),
      (lookupProduct st.products it.productId).isSome) :
    ∃ st1, cancelSale st sid = .ok st1 ∧
      cancelSale st1 sid = .error .alreadyCancelled ∧
      runOp st1 (.cancel sid) = st1 ∧
      ∀ pid, stockOf st1 pid = stockOf st pid +
        itemsQty (st.saleItems.filter (fun it => it.saleId = sid)) pid := by
  have h1 := cancelSale_eq_ok hfind hc hex
  refine ⟨_, h1, ?_, ?_, ?_⟩
  case refine_3 =>
    intro pid
    have hps : ({ restoreItems sid st (st.saleItems.filter (fun it => it.saleId = sid)) with
        sales := (restoreItems sid st
          (st.saleItems.filter (fun it => it.saleId = sid))).sales.map
            (fun s => if s.id = sid then { s with isCancelled := true } else s) } :
        State).products =
        (restoreItems sid st (st.saleItems.filter (fun it => it.saleId = sid))).products := rfl
    rw [stockOf_of_products_eq hps pid]
    exact restoreItems_stockOf sid st _ hex pid
  case refine_1 =>
    have hsid : sale.id = sid := by simpa using List.find?_some hfind
    have hfind1 : ({ restoreItems sid st (st.saleItems.filter (fun it => it.saleId = sid)) with
        sales := (restoreItems sid st
          (st.saleItems.filter (fun it => it.saleId = sid))).sales.map
            (fun s => if s.id = sid then { s with isCancelled := true } else s) } :
        State).sales.find? (fun s => s.id = sid) =
        some { sale with isCancelled := true } := by
      show ((restoreItems sid st _).sales.map _).find? _ = _
      rw [find?_sales_setCancelled, restoreItems_sales, hfind]
      simp [hsid]
    unfold cancelSale
    rw [hfind1]
    dsimp only
    rw [if_pos rfl]
  case refine_2 =>
    have hsid : sale.id = sid := by simpa using List.find?_some hfind
    have hfind1 : ({ restoreItems sid st (st.saleItems.filter (fun it => it.saleId = sid)) with
        sales := (restoreItems sid st
          (st.saleItems.filter (fun it => it.saleId = sid))).sales.map
            (fun s => if s.id = sid then { s with isCancelled := true } else s) } :
        State).sales.find? (fun s => s.id = sid) =
        some { sale with isCancelled := true } := by
      show ((restoreItems sid st _).sales.map _).find? _ = _
      rw [find?_sales_setCancelled, restoreItems_sales, hfind]
      simp [hsid]
    have h2 : cancelSale ({ restoreItems sid st
        (st.saleItems.filter (fun it => it.saleId = sid)) with
        sales := (restoreItems sid st
          (st.saleItems.filter (fun it => it.saleId = sid))).sales.map
            (fun s => if s.id = sid then { s with isCancelled := true } else s) } : State) sid =
        .error .alreadyCancelled := by
      unfold cancelSale
      rw [hfind1]
      dsimp only
      rw [if_pos rfl]
    rw [runOp, h2]

theorem cancel_twice_witness :
    ∃ st1, cancelSale exSaleState 1 = .ok st1 ∧
      cancelSale st1 1 = .error .alreadyCancelled ∧
      runOp st1 (.cancel 1) = st1 ∧
      ∀ pid, stockOf st1 pid = stockOf exSaleState pid +
        itemsQty (exSaleState.saleItems.filter (fun it => it.saleId = 1)) pid :=
  cancel_twice exSaleState 1 ⟨1, 10, 850, false⟩ (by decide) (by decide) (by decide)

/-- C3 counterexample: with product 1 at stock 5, a sale whose two line
items both reference product 1 (quantity 3 each) commits with stock 2 (the
second stale write overwrites the first), and the immediate cancellation
returns 3 + 3 = 6, leaving stock 8 ≠ 5 — the round trip does not restore the
pre-sale stock. -/
theorem roundtrip_counterexample :
    ((createSale exState 10 [(1, 3), (1, 3)]).toOption.bind
      (fun st1 => (cancelSale st1 1).toOption)).map (fun st2 => stockOf st2 1) =
        some 8 ∧
    stockOf exState 1 = 5 := by
  decide

/-- C3 amended: for every successful `create_sale` whose line items reference
pairwise distinct products (against a state whose tables do not yet use the
new sale id), immediately cancelling the created sale succeeds, restores
every product's stock to its exact pre-sale value, and the movements written
by the create/cancel pair have net quantity change zero per product.  When a
product occurs in two line items the committed decrement is only the last
item's quantity while cancellation restores the sum, so restoration fails. -/
theorem create_cancel_roundtrip (st : State) (u : Nat) (items : List (Nat × Nat)) (st1 : State)
    (hnodup : (items.map Prod.fst).Nodup)
    (hsales : ∀ s ∈ st.sales, s.id ≠ st.nextSaleId)
    (hitems : ∀ it ∈ st.saleItems, it.saleId ≠ st.nextSaleId)
    (hok : createSale st u items = .ok st1) :
    ∃ st2, cancelSale st1 st.nextSaleId = .ok st2 ∧
      (∀ pid, stockOf st2 pid = stockOf st pid) ∧
      (∀ pid, netLogged st2.movements pid = netLogged st.movements pid) := by
  rcases createSale_new_items hok hitems with
    ⟨resolved, pending, hres, hchk, hfilter, hsaleseq, hmoveq⟩
  rcases createSale_ok_inv hok with ⟨resolved', pending', hres', hchk', hst1⟩
  rw [hres] at hres'
  injection hres' with hres''
  subst hres''
  rw [hchk] at hchk'
  injection hchk' with hchk''
  subst hchk''
  rcases createSale_pending_facts hres hchk with ⟨hsnap, hids⟩
  have hnd : (pending.map (fun it => it.product.id)).Nodup := by
    rw [hids]
    exact hnodup
  have hstock1 : ∀ pid, stockOf st1 pid = stockOf st pid - pendingQty pending pid := by
    intro pid
    rw [hst1]
    exact stockOf_applyPending st.nextSaleId
      { st with
        sales := st.sales ++
          [⟨st.nextSaleId, u, (pending.map (fun it => it.subtotal)).sum, false⟩],
        nextSaleId := st.nextSaleId + 1 } pending hnd hsnap pid
  have hex1 : ∀ it ∈ st1.saleItems.filter (fun it => it.saleId = st.nextSaleId),
      (lookupProduct st1.products it.productId).isSome := by
    intro it hit
    rw [hfilter] at hit
    rcases List.mem_map.mp hit with ⟨x, hx, rfl⟩
    have : (lookupProduct st1.products (toSaleItem st.nextSaleId x).productId).isSome =
        (lookupProduct st.products x.product.id).isSome := by
      rw [hst1]
      exact applyPending_lookup_isSome _ _ _ _
    rw [this, hsnap x hx]
    rfl
  have hfind1 : st1.sales.find? (fun s => s.id = st.nextSaleId) =
      some ⟨st.nextSaleId, u, (pending.map (fun it => it.subtotal)).sum, false⟩ := by
    rw [hsaleseq]
    exact find?_sales_append hsales _ rfl
  have h2 := cancelSale_eq_ok hfind1 rfl hex1
  refine ⟨_, h2, ?_, ?_⟩
  · intro pid
    have hps : ({ restoreItems st.nextSaleId st1
        (st1.saleItems.filter (fun it => it.saleId = st.nextSaleId)) with
        sales := (restoreItems st.nextSaleId st1
          (st1.saleItems.filter (fun it => it.saleId = st.nextSaleId))).sales.map
            (fun s => if s.id = st.nextSaleId then { s with isCancelled := true } else s) } :
        State).products =
        (restoreItems st.nextSaleId st1
          (st1.saleItems.filter (fun it => it.saleId = st.nextSaleId))).products := rfl
    rw [stockOf_of_products_eq hps pid,
      restoreItems_stockOf st.nextSaleId st1 _ hex1 pid, hfilter,
      itemsQty_map_toSaleItem, hstock1 pid]
    ring
  · intro pid
    have hmv : ({ restoreItems st.nextSaleId st1
        (st1.saleItems.filter (fun it => it.saleId = st.nextSaleId)) with
        sales := (restoreItems st.nextSaleId st1
          (st1.saleItems.filter (fun it => it.saleId = st.nextSaleId))).sales.map
            (fun s => if s.id = st.nextSaleId then { s with isCancelled := true } else s) } :
        State).movements =
        (restoreItems st.nextSaleId st1
          (st1.saleItems.filter (fun it => it.saleId = st.nextSaleId))).movements := rfl
    rw [hmv, restoreItems_movements st.nextSaleId st1 _ hex1, netLogged_append, hmoveq,
      netLogged_append, netLogged_map_toSalida, hfilter, netLogged_map_toEntrada,
      itemsQty_map_toSaleItem]
    ring

theorem create_cancel_roundtrip_witness :
    ∃ st2, cancelSale exAfterSale exState.nextSaleId = .ok st2 ∧
      (∀ pid, stockOf st2 pid = stockOf exState pid) ∧
      (∀ pid, netLogged st2.movements pid = netLogged exState.movements pid) :=
  create_cancel_roundtrip exState 10 [(1, 3), (2, 1)] exAfterSale
    (by decide) (by decide) (by decide) (by decide)

end PosSystem
